import Mathlib

/-!
Verification of the AtomicShims library
(`Sources/AtomicShims/AtomicShims.c`, `Sources/AtomicShims/include/AtomicShims.h`).

The library exposes a single atomic integer cell (`AtomicInt`, one
`atomic_intptr_t` field) and three operations:

  void     store   (AtomicInt *p, intptr_t v)  -- atomic_store_explicit    (relaxed)
  intptr_t load    (AtomicInt *p)              -- atomic_load_explicit     (acquire)
  intptr_t exchange(AtomicInt *p, intptr_t v)  -- atomic_exchange_explicit (release)

The embedding below is sequentially faithful: the cell state is the single
`intptr_t` value it holds (modelled as `Int`; none of the operations performs
arithmetic, so machine-word wraparound never arises), destructive updates
become explicit state passing, and the memory-order argument of each C11
intrinsic is carried verbatim as a `MemoryOrder` value.  Concurrent use is
modelled by a step relation on the cell state whose events are tagged with
the id of the calling thread: each C11 atomic operation is indivisible, so an
execution with any number of threads is an interleaving, i.e. a trace of
single-operation steps.
-/

namespace AtomicShims

/-- The C11 memory orderings (`memory_order` of `<stdatomic.h>`), in the
order of the `__ATOMIC_*` constants used by the source. -/
inductive MemoryOrder where
  | relaxed
  | consume
  | acquire
  | release
  | acqRel
  | seqCst
deriving DecidableEq, Repr

/-- The cell type: `struct AtomicInt { atomic_intptr_t value; }`
(`include/AtomicShims.h`, lines 3-6). -/
structure AtomicInt where
  value : Int
deriving DecidableEq, Repr

/-- C11 `atomic_store_explicit` on an `atomic_intptr_t` field: overwrites the
cell with `v`.  The ordering argument does not affect the sequential result. -/
def atomic_store_explicit (_cell : AtomicInt) (v : Int) (_ord : MemoryOrder) :
    AtomicInt :=
  { value := v }

/-- C11 `atomic_load_explicit` on an `atomic_intptr_t` field: returns the
value held by the cell. -/
def atomic_load_explicit (cell : AtomicInt) (_ord : MemoryOrder) : Int :=
  cell.value

/-- C11 `atomic_exchange_explicit` on an `atomic_intptr_t` field: returns the
prior value and overwrites the cell with `v`. -/
def atomic_exchange_explicit (cell : AtomicInt) (v : Int) (_ord : MemoryOrder) :
    Int × AtomicInt :=
  (cell.value, { value := v })

/-- The memory ordering passed by `store` (`AtomicShims.c` line 5:
`__ATOMIC_RELAXED`). -/
def storeOrder : MemoryOrder := .relaxed

/-- The memory ordering passed by `load` (`AtomicShims.c` line 10:
`__ATOMIC_ACQUIRE`). -/
def loadOrder : MemoryOrder := .acquire

/-- The memory ordering passed by `exchange` (`AtomicShims.c` line 15:
`__ATOMIC_RELEASE`). -/
def exchangeOrder : MemoryOrder := .release

/-- `void store(AtomicInt *atomic_value, intptr_t value)`
(`AtomicShims.c`, lines 3-6).  The C function returns `void`; the embedding
returns the updated cell state. -/
def store (atomic_value : AtomicInt) (value : Int) : AtomicInt :=
  atomic_store_explicit atomic_value value storeOrder

/-- `intptr_t load(AtomicInt *atomic_value)` (`AtomicShims.c`, lines 8-11).
The C function does not modify the cell; the embedding returns just the
loaded value (the frame property is stated over the step relation below). -/
def load (atomic_value : AtomicInt) : Int :=
  atomic_load_explicit atomic_value loadOrder

/-- `intptr_t exchange(AtomicInt *atomic_value, intptr_t value)`
(`AtomicShims.c`, lines 13-16).  The embedding returns the C return value
paired with the updated cell state. -/
def exchange (atomic_value : AtomicInt) (value : Int) : Int × AtomicInt :=
  atomic_exchange_explicit atomic_value value exchangeOrder

/-- One completed call into the shim, tagged with the id of the calling
thread; `load` and `exchange` events also record the value returned. -/
inductive Event where
  | store (tid : Nat) (v : Int)
  | load (tid : Nat) (r : Int)
  | exchange (tid : Nat) (v : Int) (r : Int)
deriving DecidableEq, Repr

/-- Small-step semantics of the cell: each of the three C11 atomic calls is a
single indivisible step transforming the cell state.  Any concurrent
execution is an interleaving of such steps. -/
inductive Step : AtomicInt → Event → AtomicInt → Prop where
  | store (s : AtomicInt) (tid : Nat) (v : Int) :
      Step s (.store tid v) (AtomicShims.store s v)
  | load (s : AtomicInt) (tid : Nat) :
      Step s (.load tid (AtomicShims.load s)) s
  | exchange (s : AtomicInt) (tid : Nat) (v : Int) :
      Step s (.exchange tid v (AtomicShims.exchange s v).1)
        (AtomicShims.exchange s v).2

/-- A trace: a sequence of interleaved steps from one cell state to another. -/
inductive Trace : AtomicInt → List Event → AtomicInt → Prop where
  | nil (s : AtomicInt) : Trace s [] s
  | cons {s s' s'' : AtomicInt} {e : Event} {es : List Event} :
      Step s e s' → Trace s' es s'' → Trace s (e :: es) s''

/-- The value written by an event, if it is a write (`store` or `exchange`). -/
def Event.writeValue : Event → Option Int
  | .store _ v => some v
  | .exchange _ v _ => some v
  | .load _ _ => none

/-- The values written by the writes of an event sequence, in order. -/
def writes (es : List Event) : List Int := es.filterMap Event.writeValue

end AtomicShims

namespace AtomicShims

/-- The writes of a trace beginning with a `store` event are the stored
value followed by the later writes. -/
theorem writes_store_cons (tid : Nat) (v : Int) (es : List Event) :
    writes (Event.store tid v :: es) = v :: writes es := rfl

/-- The writes of a trace beginning with an `exchange` event are the
installed value followed by the later writes. -/
theorem writes_exchange_cons (tid : Nat) (v r : Int) (es : List Event) :
    writes (Event.exchange tid v r :: es) = v :: writes es := rfl

/-- A `load` event contributes no write. -/
theorem writes_load_cons (tid : Nat) (r : Int) (es : List Event) :
    writes (Event.load tid r :: es) = writes es := rfl

/-- After a trace, the cell holds either its starting value or a value
written by some `store` or `exchange` event of the trace. -/
theorem value_after_trace {s s' : AtomicInt} {es : List Event}
    (h : Trace s es s') : s'.value = s.value ∨ s'.value ∈ writes es := by
  induction h with
  | nil s => exact Or.inl rfl
  | cons hstep _ ih =>
    cases hstep with
    | store tid v =>
      right
      rw [writes_store_cons, List.mem_cons]
      rcases ih with h | h
      · exact Or.inl h
      · exact Or.inr h
    | load tid =>
      rw [writes_load_cons]
      exact ih
    | exchange tid v =>
      right
      rw [writes_exchange_cons, List.mem_cons]
      rcases ih with h | h
      · exact Or.inl h
      · exact Or.inr h

/-- A trace through a list split at an event decomposes into a trace up to
the event, the event's step, and a trace after it. -/
theorem trace_append_split {s s'' : AtomicInt} {pre post : List Event}
    {e : Event} (h : Trace s (pre ++ e :: post) s'') :
    ∃ s1 s2, Trace s pre s1 ∧ Step s1 e s2 ∧ Trace s2 post s'' := by
  induction pre generalizing s with
  | nil =>
    cases h with
    | cons hstep htail => exact ⟨_, _, Trace.nil _, hstep, htail⟩
  | cons e0 pre ih =>
    rw [List.cons_append] at h
    cases h with
    | cons hstep htail =>
      obtain ⟨s1, s2, h1, h2, h3⟩ := ih htail
      exact ⟨s1, s2, Trace.cons hstep h1, h2, h3⟩

end AtomicShims

open AtomicShims

/-- C1: store-then-load round-trip — for every value `v` and every cell
state, `load` after `store _ v` (no intervening operation, single-threaded)
returns `v`. -/
theorem C1_store_then_load_roundtrip (s : AtomicInt) (v : Int) :
    load (store s v) = v := rfl

/-- C2: after `store s v1`, `exchange _ v2` returns `v1`, and a subsequent
`load` returns `v2`. -/
theorem C2_store_exchange_load (s : AtomicInt) (v1 v2 : Int) :
    (exchange (store s v1) v2).1 = v1 ∧
      load (exchange (store s v1) v2).2 = v2 :=
  ⟨rfl, rfl⟩

/-- C3: `exchange` replaces the cell's value with `v` and returns the value
held immediately before, for every cell state and value; in particular,
`exchange` of 7 on a cell holding 3 returns 3 and a following `load`
returns 7. -/
theorem C3_exchange_returns_prior :
    (∀ (s : AtomicInt) (v : Int),
        (exchange s v).1 = s.value ∧ (exchange s v).2.value = v) ∧
      (exchange ⟨3⟩ 7).1 = 3 ∧ load (exchange ⟨3⟩ 7).2 = 7 :=
  ⟨fun _ _ => ⟨rfl, rfl⟩, rfl, rfl⟩

/-- C4: `load` is a pure read — any `load` step returns the value currently
held by the cell and leaves the cell state unchanged. -/
theorem C4_load_pure_read (s s' : AtomicInt) (tid : Nat) (r : Int)
    (h : Step s (.load tid r) s') : s' = s ∧ r = s.value := by
  cases h; exact ⟨rfl, rfl⟩

/-- Witness for C4 at the concrete cell state 5, thread 0. -/
theorem C4_load_pure_read_witness :
    (⟨5⟩ : AtomicInt) = ⟨5⟩ ∧ (5 : Int) = (⟨5⟩ : AtomicInt).value :=
  C4_load_pure_read ⟨5⟩ ⟨5⟩ 0 5 (Step.load ⟨5⟩ 0)

/-- C5: `store` writes `v` into the cell unconditionally — the resulting
cell state is `⟨v⟩` regardless of the prior value — and it is a total
function with no error conditions (its codomain is the plain cell state,
with no error case). -/
theorem C5_store_unconditional_total (s : AtomicInt) (v : Int) :
    store s v = ⟨v⟩ := rfl

/-- C6: each of `store`, `load` and `exchange` completes unconditionally in
a single step of the semantics, for every cell state and argument: the three
embedded operations are total (non-recursive, non-blocking) functions, and
every invocation has a result in the step relation. -/
theorem C6_total_single_step (s : AtomicInt) (tid : Nat) (v : Int) :
    (∃ s', Step s (.store tid v) s') ∧
      (∃ r s', Step s (.load tid r) s') ∧
      (∃ r s', Step s (.exchange tid v r) s') :=
  ⟨⟨store s v, Step.store s tid v⟩,
    ⟨load s, s, Step.load s tid⟩,
    ⟨(exchange s v).1, (exchange s v).2, Step.exchange s tid v⟩⟩

/-- C7: the three operations use exactly the memory orderings fixed by the
spec — `store` passes relaxed, `load` passes acquire, `exchange` passes
release — and each operation is the corresponding C11 explicit intrinsic at
exactly that ordering. -/
theorem C7_memory_orderings :
    storeOrder = MemoryOrder.relaxed ∧
      loadOrder = MemoryOrder.acquire ∧
      exchangeOrder = MemoryOrder.release ∧
      store = (fun s v => atomic_store_explicit s v storeOrder) ∧
      load = (fun s => atomic_load_explicit s loadOrder) ∧
      exchange = (fun s v => atomic_exchange_explicit s v exchangeOrder) :=
  ⟨rfl, rfl, rfl, rfl, rfl, rfl⟩

/-- C8: no torn reads — in any interleaving of store/load/exchange calls
from any number of threads, every `load` returns a value that was fully
written by some prior `store` or `exchange` (or the cell's initial value,
installed when the cell was created), never a bitwise mix of two writes. -/
theorem C8_no_torn_read {v0 : Int} {s' : AtomicInt}
    {pre post : List Event} {tid : Nat} {r : Int}
    (h : Trace ⟨v0⟩ (pre ++ Event.load tid r :: post) s') :
    r = v0 ∨ r ∈ writes pre := by
  obtain ⟨s1, s2, h1, h2, h3⟩ := trace_append_split h
  cases h2
  exact value_after_trace h1

/-- Witness for C8: a two-thread interleaving — thread 0 stores 11, thread 1
exchanges in 22, thread 0 then loads 22. -/
theorem C8_no_torn_read_witness :
    (22 : Int) = 0 ∨ (22 : Int) ∈ writes [Event.store 0 11, Event.exchange 1 22 11] :=
  @C8_no_torn_read 0 ⟨22⟩ [Event.store 0 11, Event.exchange 1 22 11] [] 0 22
    (Trace.cons (Step.store ⟨0⟩ 0 11)
      (Trace.cons (Step.exchange ⟨11⟩ 1 22)
        (Trace.cons (Step.load ⟨22⟩ 0) (Trace.nil _))))

/-- C9: `store` and `exchange` have identical effect on the cell state —
for every cell state and value, the state after `store s v` equals the state
after `exchange s v`; they differ only in return value and memory ordering. -/
theorem C9_store_exchange_same_state (s : AtomicInt) (v : Int) :
    store s v = (exchange s v).2 ∧ storeOrder ≠ exchangeOrder :=
  ⟨rfl, by decide⟩

/-- C10: exchange round-trip — if `r` is the value returned by
`exchange s v`, then `exchange _ r` on the resulting cell returns `v` and
restores the cell to its original state. -/
theorem C10_exchange_roundtrip (s : AtomicInt) (v : Int) :
    exchange (exchange s v).2 (exchange s v).1 = (v, s) := rfl
